import Mathlib

/-!
Verification of the aurders repository (an AUR packaging helper written in
Rust, sources `src/main.rs` and `src/utils.rs`) against its natural-language
specification.  The Rust code is shallowly embedded: strings are Lean
strings (lists of characters), the filesystem is an association list from
path to content, `std::fs::File::create_new` becomes an explicit
fail-if-present transition, and `str::replace` / `str::trim` are modelled
character by character below.
-/

namespace Aurders

/-- `leadsWith pat s` is true when `pat` is an initial segment of `s`
(the prefix test used by string search in `str::replace`). -/
def leadsWith : List Char → List Char → Bool
  | [], _ => true
  | _ :: _, [] => false
  | p :: ps, c :: cs => p == c && leadsWith ps cs

/-- `occursB pat s` is true when `pat` occurs as a contiguous segment of `s`
(the match test of `str::replace`; for nonempty `pat` this is Rust's
`s.contains(pat)`). -/
def occursB (pat : List Char) : List Char → Bool
  | [] => leadsWith pat []
  | c :: rest => leadsWith pat (c :: rest) || occursB pat rest

/-- Fuel-driven worker for leftmost, non-overlapping replacement of `pat`
by `rep`: at every position, if `pat` matches it is consumed and `rep`
emitted, otherwise one character is copied.  This is the semantics of
Rust's `str::replace` for the nonempty patterns this program uses. -/
def replaceFuel (pat rep : List Char) : Nat → List Char → List Char
  | 0, s => s
  | fuel + 1, s =>
    if !pat.isEmpty && leadsWith pat s then
      rep ++ replaceFuel pat rep fuel (s.drop pat.length)
    else
      match s with
      | [] => []
      | c :: rest => c :: replaceFuel pat rep fuel rest

/-- Replacement on character lists; `s.length` fuel suffices because every
step consumes at least one character of `s`. -/
def replaceL (s pat rep : List Char) : List Char :=
  replaceFuel pat rep s.length s

/-- Embedding of Rust's `str::replace` (as used with the nonempty literal
patterns of this program). -/
def rust_replace (s pat rep : String) : String :=
  String.mk (replaceL s.data pat.data rep.data)

/-- `occursS pat s` lifts `occursB` to strings. -/
def occursS (pat s : String) : Bool :=
  occursB pat.data s.data

/-- Whitespace test used by `str::trim` (modelled by `Char.isWhitespace`). -/
def wsp (c : Char) : Bool :=
  c.isWhitespace

/-- Remove trailing whitespace from a character list. -/
def dropEndWS (l : List Char) : List Char :=
  (l.reverse.dropWhile wsp).reverse

/-- `trimL` removes leading and trailing whitespace: the embedding of
Rust's `str::trim` on character lists. -/
def trimL (l : List Char) : List Char :=
  dropEndWS (l.dropWhile wsp)

/-- Embedding of Rust's `str::trim`. -/
def rust_trim (s : String) : String :=
  String.mk (trimL s.data)

/-- `noEdgeWS l` is true when `l` neither starts nor ends with a
whitespace character. -/
def noEdgeWS (l : List Char) : Bool :=
  (match l.head? with
   | some c => !wsp c
   | none => true) &&
  (match l.getLast? with
   | some c => !wsp c
   | none => true)

/-- Character-level expansion: replace every occurrence of the single
character `p` by the list `rep`, copying all other characters. -/
def expandChar (p : Char) (rep : List Char) : List Char → List Char
  | [] => []
  | c :: rest => (if c = p then rep else [c]) ++ expandChar p rep rest

/-- The three-character string quote, space, quote that `select_arch`
substitutes for each space of a manually entered architecture. -/
def quoteSpaceQuote : String :=
  String.mk ['\'', ' ', '\'']

/-- Embedding of the manual-entry branch (option 4) of
`utils::select_arch`: `arch.trim().replace(" ", "' '")`. -/
def select_arch_manual (input : String) : String :=
  rust_replace (rust_trim input) " " quoteSpaceQuote

/-- Embedding of `utils::input_string`: trim the raw line; if the trimmed
input is empty return the default verbatim, otherwise the trimmed input. -/
def input_string (raw dflt : String) : String :=
  if rust_trim raw = "" then dflt else rust_trim raw

/-- Embedding of `utils::input_string_strict`: the re-prompt loop is
modelled on the list of raw lines the user types; the first line with a
nonempty trimmed form is returned (none if every line trims to empty). -/
def input_string_strict : List String → Option String
  | [] => none
  | raw :: rest =>
    if rust_trim raw = "" then input_string_strict rest
    else some (rust_trim raw)

/-- Embedding of `utils::get_source`: an affirmative trimmed answer
(`"Y"` or `"y"`) yields the trimmed source line, anything else `none`. -/
def get_source (answer source_raw : String) : Option String :=
  if rust_trim answer = "Y" ∨ rust_trim answer = "y" then
    some (rust_trim source_raw)
  else
    none

/-- The metadata record collected by `main` (struct `Information` of
`src/main.rs`), with the source's field order. -/
structure Information where
  maintainer_name : String
  maintainer_email : String
  pkgname : String
  pkgver : String
  pkgrel : String
  pkgdesc : String
  url : String
  license : String
  arch : String
  depends : String
  makedepends : String
  sha256sums : String
  deriving DecidableEq

/-- Names of the twelve fields of `Information`. -/
inductive FieldRef
  | maintainer_name
  | maintainer_email
  | pkgname
  | pkgver
  | pkgrel
  | pkgdesc
  | url
  | license
  | arch
  | depends
  | makedepends
  | sha256sums
  deriving DecidableEq

/-- Field projection of the metadata record. -/
def Information.get (info : Information) : FieldRef → String
  | FieldRef.maintainer_name => info.maintainer_name
  | FieldRef.maintainer_email => info.maintainer_email
  | FieldRef.pkgname => info.pkgname
  | FieldRef.pkgver => info.pkgver
  | FieldRef.pkgrel => info.pkgrel
  | FieldRef.pkgdesc => info.pkgdesc
  | FieldRef.url => info.url
  | FieldRef.license => info.license
  | FieldRef.arch => info.arch
  | FieldRef.depends => info.depends
  | FieldRef.makedepends => info.makedepends
  | FieldRef.sha256sums => info.sha256sums

/-- A replacement value of a substitution step: either a record field or a
hard-coded literal. -/
inductive SubstVal
  | field (f : FieldRef)
  | lit (s : String)
  deriving DecidableEq

/-- Evaluate a substitution value against a record. -/
def SubstVal.eval (info : Information) : SubstVal → String
  | SubstVal.field f => info.get f
  | SubstVal.lit s => s

/-- Whether a substitution value is a hard-coded literal. -/
def SubstVal.isLit : SubstVal → Bool
  | SubstVal.field _ => false
  | SubstVal.lit _ => true

/-- The source-level name of each record field. -/
def fieldName : FieldRef → String
  | FieldRef.maintainer_name => "maintainer_name"
  | FieldRef.maintainer_email => "maintainer_email"
  | FieldRef.pkgname => "pkgname"
  | FieldRef.pkgver => "pkgver"
  | FieldRef.pkgrel => "pkgrel"
  | FieldRef.pkgdesc => "pkgdesc"
  | FieldRef.url => "url"
  | FieldRef.license => "license"
  | FieldRef.arch => "arch"
  | FieldRef.depends => "depends"
  | FieldRef.makedepends => "makedepends"
  | FieldRef.sha256sums => "sha256sums"

/-- The twelve record fields, in the order of `generate_pkgbuild`'s
replace chain. -/
def allFields : List FieldRef :=
  [FieldRef.maintainer_name, FieldRef.maintainer_email, FieldRef.pkgname,
   FieldRef.pkgver, FieldRef.pkgrel, FieldRef.pkgdesc, FieldRef.arch,
   FieldRef.url, FieldRef.license, FieldRef.depends, FieldRef.makedepends,
   FieldRef.sha256sums]

/-- The replace chain of `generate_pkgbuild` (src/main.rs lines 69-81),
in source order. -/
def pkgbuild_chain : List (String × SubstVal) :=
  [("{maintainer_name}", SubstVal.field FieldRef.maintainer_name),
   ("{maintainer_email}", SubstVal.field FieldRef.maintainer_email),
   ("{pkgname}", SubstVal.field FieldRef.pkgname),
   ("{pkgver}", SubstVal.field FieldRef.pkgver),
   ("{pkgrel}", SubstVal.field FieldRef.pkgrel),
   ("{pkgdesc}", SubstVal.field FieldRef.pkgdesc),
   ("{arch}", SubstVal.field FieldRef.arch),
   ("{url}", SubstVal.field FieldRef.url),
   ("{license}", SubstVal.field FieldRef.license),
   ("{depends}", SubstVal.field FieldRef.depends),
   ("{makedepends}", SubstVal.field FieldRef.makedepends),
   ("{sha256sums}", SubstVal.field FieldRef.sha256sums)]

/-- The replace chain of `generate_srcinfo` (src/main.rs lines 99-109),
in source order; the last three replacements are hard-coded literals. -/
def srcinfo_chain : List (String × SubstVal) :=
  [("{pkgbase}", SubstVal.field FieldRef.pkgname),
   ("{pkgdesc}", SubstVal.field FieldRef.pkgdesc),
   ("{pkgrel}", SubstVal.field FieldRef.pkgrel),
   ("{url}", SubstVal.field FieldRef.url),
   ("{arch}", SubstVal.field FieldRef.arch),
   ("{license}", SubstVal.field FieldRef.license),
   ("{makedepends}", SubstVal.field FieldRef.makedepends),
   ("{source}", SubstVal.lit "SOURCE"),
   ("{sha256sums}", SubstVal.lit "sha256sums"),
   ("{pkgname}", SubstVal.lit "pkgname")]

/-- Sequential placeholder substitution: fold a replace chain over the
template text, exactly as the chained `.replace` calls do. -/
def render (chain : List (String × SubstVal)) (info : Information) (t : String) : String :=
  chain.foldl (fun acc pv => rust_replace acc pv.1 (SubstVal.eval info pv.2)) t

/-- `renderAgreeB info info' chain t` certifies, step by step along the
chain, that either both records give the step the same value or the
step's placeholder does not occur in the intermediate text. -/
def renderAgreeB (info info' : Information) : List (String × SubstVal) → String → Bool
  | [], _ => true
  | (p, v) :: rest, t =>
    (SubstVal.eval info v == SubstVal.eval info' v || !occursS p t) &&
    renderAgreeB info info' rest (rust_replace t p (SubstVal.eval info v))

/-- Error kinds of `std::io::Error` relevant to this program. -/
inductive IOError
  | notFound
  | alreadyExists
  | other
  deriving DecidableEq

/-- The filesystem, as an association list from path to file content. -/
abbrev FS := List (String × String)

/-- Look up the content of a path. -/
def lookupFS : FS → String → Option String
  | [], _ => none
  | (k, v) :: rest, p => if k = p then some v else lookupFS rest p

/-- Embedding of `File::create_new(path)` followed by `write_all(text)`:
fails with `AlreadyExists` and leaves the filesystem unchanged when the
path is present, otherwise creates the file with the given content. -/
def persist (fs : FS) (path text : String) : Except IOError Unit × FS :=
  match lookupFS fs path with
  | some _ => (Except.error IOError.alreadyExists, fs)
  | none => (Except.ok (), (path, text) :: fs)

/-- Embedding of `save_pkgbuild` (src/main.rs lines 154-168); the reported
outcome is kept alongside the new filesystem. -/
def save_pkgbuild (fs : FS) (text : String) : Except IOError Unit × FS :=
  persist fs "PKGBUILD" text

/-- Embedding of `save_srcinfo` (src/main.rs lines 171-185). -/
def save_srcinfo (fs : FS) (text : String) : Except IOError Unit × FS :=
  persist fs ".SRCINFO" text

/-- Embedding of `get_pkgbuild`: read `templates/PKGBUILD`. -/
def get_pkgbuild (fs : FS) : Except IOError String :=
  match lookupFS fs "templates/PKGBUILD" with
  | some t => Except.ok t
  | none => Except.error IOError.notFound

/-- Embedding of `get_srcinfo`: read `templates/SRCINFO`. -/
def get_srcinfo (fs : FS) : Except IOError String :=
  match lookupFS fs "templates/SRCINFO" with
  | some t => Except.ok t
  | none => Except.error IOError.notFound

/-- Embedding of `generate_pkgbuild` (src/main.rs lines 62-89). -/
def generate_pkgbuild (fs : FS) (info : Information) : Except IOError String :=
  match get_pkgbuild fs with
  | Except.ok t => Except.ok (render pkgbuild_chain info t)
  | Except.error e => Except.error e

/-- Embedding of `generate_srcinfo` (src/main.rs lines 92-117). -/
def generate_srcinfo (fs : FS) (info : Information) : Except IOError String :=
  match get_srcinfo fs with
  | Except.ok t => Except.ok (render srcinfo_chain info t)
  | Except.error e => Except.error e

/-- Embedding of the generation half of `main` (src/main.rs lines 36-58):
generate and save the PKGBUILD, then, whatever the outcome, generate and
save the .SRCINFO; a failed save only prints and never aborts. -/
def main_run (fs : FS) (info : Information) : FS :=
  let fs₁ := match generate_pkgbuild fs info with
    | Except.ok pb => (save_pkgbuild fs pb).2
    | Except.error _ => fs
  match generate_srcinfo fs₁ info with
  | Except.ok si => (save_srcinfo fs₁ si).2
  | Except.error _ => fs₁

/-- Model of the external `sha256::try_digest`: the digest function on
file contents is abstract (parameter `hash`); a missing path is an error. -/
def try_digest (hash : String → String) (fs : FS) (path : String) : Except IOError String :=
  match lookupFS fs path with
  | some content => Except.ok (hash content)
  | none => Except.error IOError.notFound

/-- Embedding of `utils::get_sha256` (src/utils.rs lines 94-108): any
digest failure is swallowed and surfaced as `none` (after logging that
`SKIP` will be used). -/
def get_sha256 (hash : String → String) (fs : FS) (tarball : String) : Option String :=
  match try_digest hash fs tarball with
  | Except.ok v => some v
  | Except.error _ => none

/-- Modelled from the spec: no caller of `get_sha256` exists under src/;
per spec section 4.3 (and `get_sha256`'s own log message) the checksum
value that reaches the Metadata Record is the digest on success and the
sentinel `"SKIP"` when `get_sha256` reports failure. -/
def digest (hash : String → String) (fs : FS) (path : String) : String :=
  match get_sha256 hash fs path with
  | some v => v
  | none => "SKIP"

/-- Outcome of running a fallible operation that may also terminate the
whole process (`utils::dead` calls `exit(1)`). -/
inductive ProcResult (α : Type)
  | ok (a : α)
  | err (e : IOError)
  | exited (code : Nat)
  deriving DecidableEq

/-- Whether a `ProcResult` is an error return (an `Err` reaching the
caller, as opposed to success or process termination). -/
def ProcResult.isErrB {α : Type} : ProcResult α → Bool
  | ProcResult.err _ => true
  | _ => false

/-- Embedding of `utils::create_tarball` (src/utils.rs lines 111-146).
`source_file_name` is `source.file_name()` converted to text (`none`
covers both a missing final path segment and a failed conversion — both
arms call `dead()`, so the dummy string is never used); `create_ok` is
whether `File::create` of the output path succeeds (its failure is the
only propagated `Err`, via `?`); `source_is_dir` is whether
`append_dir_all` succeeds, and its failure arm calls `dead()` before the
unreachable `return Err`. -/
def create_tarball (source_file_name : Option String)
    (create_ok source_is_dir : Bool) : ProcResult String :=
  match source_file_name with
  | none => ProcResult.exited 1
  | some name =>
    if create_ok then
      if source_is_dir then
        ProcResult.ok ("aurders/" ++ name ++ ".tar.gz")
      else
        ProcResult.exited 1
    else
      ProcResult.err IOError.other

/-- Record exhibiting double substitution: the maintainer-name value is
itself the pkgname placeholder. -/
def cinfo : Information :=
  { maintainer_name := "{pkgname}", maintainer_email := "", pkgname := "X",
    pkgver := "", pkgrel := "", pkgdesc := "", url := "", license := "",
    arch := "", depends := "", makedepends := "", sha256sums := "" }

/-- `cinfo` with only the pkgname field altered. -/
def cinfo' : Information :=
  { maintainer_name := "{pkgname}", maintainer_email := "", pkgname := "Y",
    pkgver := "", pkgrel := "", pkgdesc := "", url := "", license := "",
    arch := "", depends := "", makedepends := "", sha256sums := "" }

/-- A plain record with placeholder-free values. -/
def infoA : Information :=
  { maintainer_name := "m", maintainer_email := "e", pkgname := "n",
    pkgver := "v1", pkgrel := "r", pkgdesc := "d", url := "u",
    license := "l", arch := "a", depends := "dep", makedepends := "mdep",
    sha256sums := "sum" }

/-- `infoA` with only the pkgver field altered. -/
def infoB : Information :=
  { maintainer_name := "m", maintainer_email := "e", pkgname := "n",
    pkgver := "v2", pkgrel := "r", pkgdesc := "d", url := "u",
    license := "l", arch := "a", depends := "dep", makedepends := "mdep",
    sha256sums := "sum" }

end Aurders

namespace Aurders

theorem leadsWith_append (l t : List Char) : leadsWith l (l ++ t) = true := by
  induction l with
  | nil => rfl
  | cons p ps ih => simp [leadsWith, ih]

theorem leadsWith_length_le {pat s : List Char} (h : leadsWith pat s = true) :
    pat.length ≤ s.length := by
  induction pat generalizing s with
  | nil => simp
  | cons p ps ih =>
    cases s with
    | nil => simp [leadsWith] at h
    | cons c cs =>
      simp only [leadsWith, Bool.and_eq_true] at h
      simpa [List.length_cons] using Nat.succ_le_succ (ih h.2)

theorem replaceFuel_fuel_irrel (pat rep : List Char) :
    ∀ f₁ f₂ s, s.length ≤ f₁ → s.length ≤ f₂ →
      replaceFuel pat rep f₁ s = replaceFuel pat rep f₂ s := by
  intro f₁
  induction f₁ with
  | zero =>
    intro f₂ s h₁ _
    have hs : s = [] := List.length_eq_zero.mp (Nat.le_zero.mp h₁)
    subst hs
    cases f₂ with
    | zero => rfl
    | succ f => cases pat <;> simp [replaceFuel, leadsWith]
  | succ f ih =>
    intro f₂ s h₁ h₂
    cases f₂ with
    | zero =>
      have hs : s = [] := List.length_eq_zero.mp (Nat.le_zero.mp h₂)
      subst hs
      cases pat <;> simp [replaceFuel, leadsWith]
    | succ g =>
      by_cases hc : (!pat.isEmpty && leadsWith pat s) = true
      · have hp : 1 ≤ pat.length := by
          cases pat with
          | nil => simp at hc
          | cons _ _ => simp
        have hd₁ : (s.drop pat.length).length ≤ f := by
          simp only [List.length_drop]
          omega
        have hd₂ : (s.drop pat.length).length ≤ g := by
          simp only [List.length_drop]
          omega
        simp only [replaceFuel, if_pos hc]
        exact congrArg (rep ++ ·) (ih g (s.drop pat.length) hd₁ hd₂)
      · cases s with
        | nil => simp only [replaceFuel, if_neg hc]
        | cons c rest =>
          have hr₁ : rest.length ≤ f := by
            simp only [List.length_cons] at h₁
            omega
          have hr₂ : rest.length ≤ g := by
            simp only [List.length_cons] at h₂
            omega
          simp only [replaceFuel, if_neg hc]
          exact congrArg (c :: ·) (ih g rest hr₁ hr₂)

theorem replaceFuel_of_not_occurs (pat rep : List Char) :
    ∀ fuel s, occursB pat s = false → replaceFuel pat rep fuel s = s := by
  intro fuel
  induction fuel with
  | zero => intro s _; rfl
  | succ f ih =>
    intro s h
    cases s with
    | nil =>
      have hlw : leadsWith pat [] = false := by simpa [occursB] using h
      simp [replaceFuel, hlw]
    | cons c rest =>
      simp only [occursB, Bool.or_eq_false_iff] at h
      have hcond : ¬((!pat.isEmpty && leadsWith pat (c :: rest)) = true) := by
        simp [h.1]
      simp only [replaceFuel, if_neg hcond]
      exact congrArg (c :: ·) (ih rest h.2)

theorem rust_replace_of_not_occurs (t pat rep : String) (h : occursS pat t = false) :
    rust_replace t pat rep = t := by
  unfold rust_replace replaceL
  rw [replaceFuel_of_not_occurs pat.data rep.data t.data.length t.data h]

theorem replaceL_prefix (p : Char) (ps rep rest : List Char) :
    replaceL ((p :: ps) ++ rest) (p :: ps) rep = rep ++ replaceL rest (p :: ps) rep := by
  have hfl : ((p :: ps) ++ rest).length = (ps ++ rest).length + 1 := by
    simp
  unfold replaceL
  rw [hfl]
  have hcond : (!(p :: ps).isEmpty && leadsWith (p :: ps) ((p :: ps) ++ rest)) = true := by
    rw [Bool.and_eq_true]
    exact ⟨rfl, leadsWith_append (p :: ps) rest⟩
  simp only [replaceFuel, if_pos hcond]
  congr 1
  rw [List.drop_left]
  exact replaceFuel_fuel_irrel (p :: ps) rep ((ps ++ rest).length) rest.length rest
    (by simp) (Nat.le_refl _)

theorem rust_replace_prefix (p v rest : String) (hp : p ≠ "") :
    rust_replace (p ++ rest) p v = v ++ rust_replace rest p v := by
  obtain ⟨c, cs, hdata⟩ : ∃ c cs, p.data = c :: cs := by
    cases p with
    | mk d =>
      cases d with
      | nil => exact absurd rfl hp
      | cons c cs => exact ⟨c, cs, rfl⟩
  show String.mk (replaceL (p ++ rest).data p.data v.data) =
    v ++ String.mk (replaceL rest.data p.data v.data)
  have happ : (p ++ rest).data = p.data ++ rest.data := rfl
  rw [happ, hdata, replaceL_prefix]
  rfl

theorem render_of_not_occurs (info : Information) :
    ∀ (chain : List (String × SubstVal)) (t : String),
      (∀ pv ∈ chain, occursS pv.1 t = false) → render chain info t = t := by
  intro chain
  induction chain with
  | nil => intro t _; rfl
  | cons pv rest ih =>
    intro t h
    have h₀ : occursS pv.1 t = false := h pv (List.mem_cons_self _ _)
    show render rest info (rust_replace t pv.1 (SubstVal.eval info pv.2)) = t
    rw [rust_replace_of_not_occurs t pv.1 _ h₀]
    exact ih t (fun q hq => h q (List.mem_cons_of_mem _ hq))

theorem render_split (chain : List (String × SubstVal)) (info : Information)
    (t : String) (i : Nat) :
    render chain info t = render (chain.drop i) info (render (chain.take i) info t) := by
  conv_lhs => rw [← List.take_append_drop i chain]
  unfold render
  rw [List.foldl_append]

theorem render_congr (info info' : Information) :
    ∀ (chain : List (String × SubstVal)) (t : String),
      renderAgreeB info info' chain t = true →
      render chain info t = render chain info' t := by
  intro chain
  induction chain with
  | nil => intro t _; rfl
  | cons pv rest ih =>
    intro t h
    obtain ⟨p, v⟩ := pv
    simp only [renderAgreeB, Bool.and_eq_true, Bool.or_eq_true, beq_iff_eq,
      Bool.not_eq_true'] at h
    obtain ⟨h₁, h₂⟩ := h
    show render rest info (rust_replace t p (SubstVal.eval info v)) =
      render rest info' (rust_replace t p (SubstVal.eval info' v))
    cases h₁ with
    | inl heq =>
      rw [← heq]
      exact ih _ h₂
    | inr hno =>
      rw [rust_replace_of_not_occurs t p _ hno,
        rust_replace_of_not_occurs t p _ hno]
      apply ih
      rw [rust_replace_of_not_occurs t p _ hno] at h₂
      exact h₂

theorem replaceFuel_single_char (p : Char) (rep : List Char) :
    ∀ fuel s, s.length ≤ fuel → replaceFuel [p] rep fuel s = expandChar p rep s := by
  intro fuel
  induction fuel with
  | zero =>
    intro s h
    have hs : s = [] := List.length_eq_zero.mp (Nat.le_zero.mp h)
    subst hs
    rfl
  | succ f ih =>
    intro s h
    cases s with
    | nil => simp [replaceFuel, leadsWith, expandChar]
    | cons c rest =>
      have hr : rest.length ≤ f := by
        simp only [List.length_cons] at h
        omega
      by_cases hc : c = p
      · have hcond : (!([p] : List Char).isEmpty && leadsWith [p] (c :: rest)) = true := by
          simp [leadsWith, hc]
        simp only [replaceFuel, if_pos hcond]
        have hdrop : (c :: rest).drop ([p] : List Char).length = rest := by
          simp
        rw [hdrop, ih rest hr]
        simp [expandChar, hc]
      · have hfalse : (p == c) = false := beq_eq_false_iff_ne.mpr (Ne.symm hc)
        have hcond : ¬((!([p] : List Char).isEmpty && leadsWith [p] (c :: rest)) = true) := by
          simp [leadsWith, hfalse]
        simp only [replaceFuel, if_neg hcond]
        rw [ih rest hr]
        simp [expandChar, hc]

theorem dropWhile_head_not_wsp :
    ∀ (l : List Char) (c : Char), (l.dropWhile wsp).head? = some c → wsp c = false := by
  intro l
  induction l with
  | nil => intro c h; simp [List.dropWhile] at h
  | cons a rest ih =>
    intro c h
    cases hwa : wsp a with
    | true =>
      rw [List.dropWhile_cons_of_pos hwa] at h
      exact ih c h
    | false =>
      rw [List.dropWhile_cons_of_neg (by simp [hwa])] at h
      simp only [List.head?_cons, Option.some.injEq] at h
      rw [← h]
      exact hwa

theorem dropWhile_getLast_of_ne_nil :
    ∀ (l : List Char), l.dropWhile wsp ≠ [] →
      (l.dropWhile wsp).getLast? = l.getLast? := by
  intro l
  induction l with
  | nil => intro h; simp [List.dropWhile] at h
  | cons a rest ih =>
    intro h
    cases hwa : wsp a with
    | true =>
      rw [List.dropWhile_cons_of_pos hwa] at h ⊢
      rw [ih h]
      cases rest with
      | nil => simp [List.dropWhile] at h
      | cons b bs => simp
    | false =>
      rw [List.dropWhile_cons_of_neg (by simp [hwa])]

theorem noEdgeWS_trimL (l : List Char) : noEdgeWS (trimL l) = true := by
  unfold trimL dropEndWS noEdgeWS
  cases hB : ((l.dropWhile wsp).reverse.dropWhile wsp) with
  | nil => simp
  | cons b bs =>
    rw [Bool.and_eq_true]
    constructor
    · rw [List.head?_reverse]
      have hne : (l.dropWhile wsp).reverse.dropWhile wsp ≠ [] := by
        rw [hB]
        simp
      have h1 := dropWhile_getLast_of_ne_nil ((l.dropWhile wsp).reverse) hne
      rw [hB] at h1
      rw [h1, List.getLast?_reverse]
      cases hh : (l.dropWhile wsp).head? with
      | none => simp
      | some c =>
        have hc := dropWhile_head_not_wsp l c hh
        simp [hc]
    · rw [List.getLast?_reverse]
      have hb : wsp b = false :=
        dropWhile_head_not_wsp ((l.dropWhile wsp).reverse) b (by rw [hB]; rfl)
      simp [hb]

theorem noEdgeWS_rust_trim (s : String) : noEdgeWS (rust_trim s).data = true :=
  noEdgeWS_trimL s.data

theorem lookupFS_cons_ne {fs : FS} {k v p : String} (h : ¬ k = p) :
    lookupFS ((k, v) :: fs) p = lookupFS fs p := by
  simp [lookupFS, h]

/-- C1 counterexample: with the maintainer-name value itself being the
pkgname placeholder token, the pkgbuild chain substitutes it a second
time at the later pkgname step — the output is "X", not the literal
field value "{pkgname}" verbatim. -/
theorem double_subst_cex :
    render pkgbuild_chain cinfo "{maintainer_name}" = "X" ∧
    cinfo.maintainer_name = "{pkgname}" ∧
    ("X" : String) ≠ "{pkgname}" := by
  refine ⟨by decide, rfl, by decide⟩

/-- C1 amended: an occurrence of placeholder p at the current position is
replaced by the field's literal value verbatim within that single step
(the inserted value is not rescanned by the same step), and the output of
the whole chain equals the intermediate text after step i whenever no
later step's placeholder occurs in that intermediate text; when a field's
value does introduce a later-substituted placeholder, the later step
substitutes it again (see the counterexample). -/
theorem subst_single_pass (p v rest : String) (hp : p ≠ "")
    (chain : List (String × SubstVal)) (info : Information) (t : String) (i : Nat)
    (h : ∀ pv ∈ chain.drop i, occursS pv.1 (render (chain.take i) info t) = false) :
    rust_replace (p ++ rest) p v = v ++ rust_replace rest p v ∧
    render chain info t = render (chain.take i) info t := by
  constructor
  · exact rust_replace_prefix p v rest hp
  · rw [render_split chain info t i]
    exact render_of_not_occurs info (chain.drop i) _ h

/-- Witness for the amended C1 at concrete inputs. -/
theorem subst_single_pass_w :
    rust_replace ("{pkgname}" ++ " rest") "{pkgname}" "1" =
      "1" ++ rust_replace " rest" "{pkgname}" "1" ∧
    render pkgbuild_chain infoA "{pkgname}" =
      render (pkgbuild_chain.take 3) infoA "{pkgname}" :=
  subst_single_pass "{pkgname}" "1" " rest" (by decide) pkgbuild_chain infoA
    "{pkgname}" 3 (by decide)

/-- C2: `persist` (the shared body of `save_pkgbuild` and `save_srcinfo`,
modelling `File::create_new` plus `write_all`) called on an absent path
creates the file with the given text; a second call on the same path
fails with AlreadyExists, leaves the filesystem unchanged, and the file
still holds the first text. -/
theorem persist_create_then_already_exists (fs : FS) (p t₁ t₂ : String)
    (h : lookupFS fs p = none) :
    (persist fs p t₁).1 = Except.ok () ∧
    lookupFS (persist fs p t₁).2 p = some t₁ ∧
    (persist (persist fs p t₁).2 p t₂).1 = Except.error IOError.alreadyExists ∧
    (persist (persist fs p t₁).2 p t₂).2 = (persist fs p t₁).2 ∧
    lookupFS (persist (persist fs p t₁).2 p t₂).2 p = some t₁ := by
  simp [persist, h, lookupFS]

/-- Witness for C2 at concrete inputs. -/
theorem persist_create_then_already_exists_w :
    (persist [] "PKGBUILD" "abc").1 = Except.ok () ∧
    lookupFS (persist [] "PKGBUILD" "abc").2 "PKGBUILD" = some "abc" ∧
    (persist (persist [] "PKGBUILD" "abc").2 "PKGBUILD" "xyz").1 =
      Except.error IOError.alreadyExists ∧
    (persist (persist [] "PKGBUILD" "abc").2 "PKGBUILD" "xyz").2 =
      (persist [] "PKGBUILD" "abc").2 ∧
    lookupFS (persist (persist [] "PKGBUILD" "abc").2 "PKGBUILD" "xyz").2 "PKGBUILD" =
      some "abc" :=
  persist_create_then_already_exists [] "PKGBUILD" "abc" "xyz" rfl

/-- C3 counterexample: `cinfo` and `cinfo'` differ only in the pkgname
field, whose placeholder does not occur in the template, yet the outputs
differ — the maintainer-name substitution introduces the pkgname
placeholder into the intermediate text and the later step substitutes it. -/
theorem unrelated_field_cex :
    occursS "{pkgname}" "{maintainer_name}" = false ∧
    cinfo.maintainer_name = cinfo'.maintainer_name ∧
    cinfo.maintainer_email = cinfo'.maintainer_email ∧
    cinfo.pkgver = cinfo'.pkgver ∧
    cinfo.pkgrel = cinfo'.pkgrel ∧
    cinfo.pkgdesc = cinfo'.pkgdesc ∧
    cinfo.url = cinfo'.url ∧
    cinfo.license = cinfo'.license ∧
    cinfo.arch = cinfo'.arch ∧
    cinfo.depends = cinfo'.depends ∧
    cinfo.makedepends = cinfo'.makedepends ∧
    cinfo.sha256sums = cinfo'.sha256sums ∧
    cinfo.pkgname ≠ cinfo'.pkgname ∧
    render pkgbuild_chain cinfo "{maintainer_name}" ≠
      render pkgbuild_chain cinfo' "{maintainer_name}" := by
  decide

/-- C3 amended: the rendered output is unchanged between two records
provided that at every step of the chain either both records give the
step the same value or the step's placeholder does not occur in the
intermediate text (`renderAgreeB`); fields absent from the template leave
the output unchanged when no earlier-substituted value introduces their
placeholder, but — per the counterexample — not in general. -/
theorem render_unrelated_fields (chain : List (String × SubstVal))
    (info info' : Information) (t : String)
    (h : renderAgreeB info info' chain t = true) :
    render chain info t = render chain info' t :=
  render_congr info info' chain t h

/-- Witness for the amended C3: altering only the pkgver field, absent
from the template, leaves the output unchanged. -/
theorem render_unrelated_fields_w :
    render pkgbuild_chain infoA "hello {pkgname}" =
      render pkgbuild_chain infoB "hello {pkgname}" :=
  render_unrelated_fields pkgbuild_chain infoA infoB "hello {pkgname}" (by decide)

/-- C4: the checksum operation never propagates an error to its caller:
on an existing file it yields the digest of the file's content, and on
any failure (such as a missing path) the sentinel "SKIP" is the value
that reaches the metadata record. -/
theorem digest_total (hash : String → String) (fs : FS) (p : String) :
    (lookupFS fs p = none → digest hash fs p = "SKIP") ∧
    (∀ c, lookupFS fs p = some c → digest hash fs p = hash c) := by
  constructor
  · intro h
    simp [digest, get_sha256, try_digest, h]
  · intro c h
    simp [digest, get_sha256, try_digest, h]

/-- Witness for C4 at concrete inputs. -/
theorem digest_total_w :
    digest (fun c => c) [("f", "data")] "g" = "SKIP" ∧
    digest (fun c => c) [("f", "data")] "f" = "data" :=
  ⟨(digest_total (fun c => c) [("f", "data")] "g").1 rfl,
   (digest_total (fun c => c) [("f", "data")] "f").2 "data" rfl⟩

/-- C5 counterexample: with an undeterminable final path segment (and
likewise with an unreadable source directory) the tarball builder
terminates the process with exit code 1; no IOError reaches the caller. -/
theorem create_tarball_exits_cex :
    create_tarball none true true = ProcResult.exited 1 ∧
    ProcResult.isErrB (create_tarball none true true) = false ∧
    create_tarball (some "proj") true false = ProcResult.exited 1 ∧
    ProcResult.isErrB (create_tarball (some "proj") true false) = false := by
  decide

/-- C5 amended: on an undeterminable final path segment, and on an
unreadable source directory, `create_tarball` terminates the process with
exit code 1 (the dummy name and the `return Err` after `dead()` are
unreachable); the only IOError returned to the caller comes from creating
the output file. -/
theorem create_tarball_failure_modes (co sd : Bool) (n : String) :
    create_tarball none co sd = ProcResult.exited 1 ∧
    create_tarball (some n) true false = ProcResult.exited 1 ∧
    create_tarball (some n) false sd = ProcResult.err IOError.other :=
  ⟨rfl, rfl, rfl⟩

/-- C6: for a determinable basename and a successful run the returned
archive path is exactly aurders/basename.tar.gz; the embedding is a pure
function of the basename, so a second invocation on the same unchanged
directory returns the same path. -/
theorem create_tarball_path (n : String) :
    create_tarball (some n) true true =
      ProcResult.ok ("aurders/" ++ n ++ ".tar.gz") :=
  rfl

/-- C7 counterexample: the source-info instantiation hard-codes three
literal constants (for source, sha256sums and pkgname), not two. -/
theorem srcinfo_literal_count_cex :
    (srcinfo_chain.filter (fun pv => SubstVal.isLit pv.2)).length = 3 ∧
    ¬((srcinfo_chain.filter (fun pv => SubstVal.isLit pv.2)).length = 2) := by
  decide

/-- C7 amended: the build-descriptor instantiation substitutes the twelve
record fields one-to-one (placeholder to same-named field, in source
order); the source-info instantiation substitutes seven record fields
plus exactly three hard-coded literal constants: source to "SOURCE",
sha256sums to "sha256sums" and pkgname to "pkgname". -/
theorem chain_shapes :
    pkgbuild_chain.map (fun pv => pv.2) = allFields.map SubstVal.field ∧
    pkgbuild_chain.map (fun pv => pv.1) =
      allFields.map (fun f => "\x7b" ++ fieldName f ++ "\x7d") ∧
    srcinfo_chain.filter (fun pv => SubstVal.isLit pv.2) =
      [("{source}", SubstVal.lit "SOURCE"),
       ("{sha256sums}", SubstVal.lit "sha256sums"),
       ("{pkgname}", SubstVal.lit "pkgname")] ∧
    (srcinfo_chain.filter (fun pv => !SubstVal.isLit pv.2)).length = 7 := by
  decide

/-- C8: with both templates present, when exactly one of the two outputs
already exists the run does not abort: the existing file is untouched and
the other output is still generated and written. -/
theorem main_run_continues (fs : FS) (info : Information) (tp ts : String)
    (hp : lookupFS fs "templates/PKGBUILD" = some tp)
    (hs : lookupFS fs "templates/SRCINFO" = some ts) :
    (∀ epb, lookupFS fs "PKGBUILD" = some epb → lookupFS fs ".SRCINFO" = none →
      lookupFS (main_run fs info) ".SRCINFO" = some (render srcinfo_chain info ts) ∧
      lookupFS (main_run fs info) "PKGBUILD" = some epb) ∧
    (∀ esi, lookupFS fs "PKGBUILD" = none → lookupFS fs ".SRCINFO" = some esi →
      lookupFS (main_run fs info) "PKGBUILD" = some (render pkgbuild_chain info tp) ∧
      lookupFS (main_run fs info) ".SRCINFO" = some esi) := by
  have hgen_pb : generate_pkgbuild fs info = Except.ok (render pkgbuild_chain info tp) := by
    simp [generate_pkgbuild, get_pkgbuild, hp]
  constructor
  · intro epb h1 h2
    have hrun : main_run fs info = (".SRCINFO", render srcinfo_chain info ts) :: fs := by
      unfold main_run
      rw [hgen_pb]
      simp only [save_pkgbuild, persist, h1]
      simp [generate_srcinfo, get_srcinfo, hs, save_srcinfo, persist, h2]
    rw [hrun]
    constructor
    · simp [lookupFS]
    · rw [lookupFS_cons_ne (by decide)]
      exact h1
  · intro esi h1 h2
    have hlook_ts : lookupFS (("PKGBUILD", render pkgbuild_chain info tp) :: fs)
        "templates/SRCINFO" = some ts := by
      rw [lookupFS_cons_ne (by decide)]
      exact hs
    have hlook_si : lookupFS (("PKGBUILD", render pkgbuild_chain info tp) :: fs)
        ".SRCINFO" = some esi := by
      rw [lookupFS_cons_ne (by decide)]
      exact h2
    have hrun : main_run fs info = ("PKGBUILD", render pkgbuild_chain info tp) :: fs := by
      unfold main_run
      rw [hgen_pb]
      simp only [save_pkgbuild, persist, h1]
      simp [generate_srcinfo, get_srcinfo, hlook_ts, save_srcinfo, persist, hlook_si]
    rw [hrun]
    constructor
    · simp [lookupFS]
    · rw [lookupFS_cons_ne (by decide)]
      exact h2

/-- Witness for C8: PKGBUILD already exists, .SRCINFO is still written. -/
theorem main_run_continues_w :
    lookupFS (main_run
      [("templates/PKGBUILD", "tp"), ("templates/SRCINFO", "ts"), ("PKGBUILD", "old")]
      infoA) ".SRCINFO" = some (render srcinfo_chain infoA "ts") ∧
    lookupFS (main_run
      [("templates/PKGBUILD", "tp"), ("templates/SRCINFO", "ts"), ("PKGBUILD", "old")]
      infoA) "PKGBUILD" = some "old" :=
  (main_run_continues
    [("templates/PKGBUILD", "tp"), ("templates/SRCINFO", "ts"), ("PKGBUILD", "old")]
    infoA "tp" "ts" (by decide) (by decide)).1 "old" (by decide) (by decide)

/-- C9: the manual-entry branch (option 4) of `select_arch` returns the
trimmed input with every space character expanded to the three-character
sequence quote, space, quote; for example "a b" becomes "a' 'b". -/
theorem select_arch_manual_spaces (s : String) :
    (select_arch_manual s).data =
      expandChar ' ' quoteSpaceQuote.data (rust_trim s).data ∧
    select_arch_manual "a b" = String.mk ['a', '\'', ' ', '\'', 'b'] := by
  constructor
  · show replaceL (rust_trim s).data [' '] quoteSpaceQuote.data = _
    unfold replaceL
    exact replaceFuel_single_char ' ' quoteSpaceQuote.data _ _ (Nat.le_refl _)
  · decide

/-- C10 counterexample: when the trimmed input is empty, `input_string`
returns the default verbatim — a default with edge whitespace reaches
the caller untrimmed. -/
theorem input_default_untrimmed_cex :
    input_string "  " " d " = " d " ∧
    noEdgeWS (input_string "  " " d ").data = false := by
  decide

/-- C10 amended: `input_string` returns the trimmed input (no leading or
trailing whitespace) when the trimmed input is nonempty, and the default
verbatim — untrimmed — otherwise; `input_string_strict` only ever returns
a nonempty trimmed string; `get_source`'s returned source is trimmed. -/
theorem input_ops_trimmed :
    (∀ raw dflt : String, rust_trim raw ≠ "" →
      input_string raw dflt = rust_trim raw ∧
      noEdgeWS (input_string raw dflt).data = true) ∧
    (∀ raw dflt : String, rust_trim raw = "" → input_string raw dflt = dflt) ∧
    (∀ (raws : List String) (s : String), input_string_strict raws = some s →
      s ≠ "" ∧ noEdgeWS s.data = true) ∧
    (∀ ans src s : String, get_source ans src = some s →
      noEdgeWS s.data = true) := by
  refine ⟨?_, ?_, ?_, ?_⟩
  · intro raw dflt h
    constructor
    · simp [input_string, h]
    · simp [input_string, h, noEdgeWS_rust_trim]
  · intro raw dflt h
    simp [input_string, h]
  · intro raws
    induction raws with
    | nil =>
      intro s h
      simp [input_string_strict] at h
    | cons raw rest ih =>
      intro s h
      by_cases hr : rust_trim raw = ""
      · simp only [input_string_strict, if_pos hr] at h
        exact ih s h
      · simp only [input_string_strict, if_neg hr, Option.some.injEq] at h
        subst h
        exact ⟨hr, noEdgeWS_rust_trim raw⟩
  · intro ans src s h
    by_cases ha : rust_trim ans = "Y" ∨ rust_trim ans = "y"
    · simp only [get_source, if_pos ha, Option.some.injEq] at h
      subst h
      exact noEdgeWS_rust_trim src
    · simp only [get_source, if_neg ha] at h
      exact Option.noConfusion h

/-- Witness for the amended C10 at concrete inputs. -/
theorem input_ops_trimmed_w :
    (input_string " a " "d" = rust_trim " a " ∧
      noEdgeWS (input_string " a " "d").data = true) ∧
    input_string " " " d " = " d " ∧
    (("x" : String) ≠ "" ∧ noEdgeWS ("x" : String).data = true) ∧
    noEdgeWS ("sr" : String).data = true :=
  ⟨input_ops_trimmed.1 " a " "d" (by decide),
   input_ops_trimmed.2.1 " " " d " (by decide),
   input_ops_trimmed.2.2.1 [" ", " x "] "x" (by decide),
   input_ops_trimmed.2.2.2 " y " " sr " "sr" (by decide)⟩
